import Mathlib

/-!
Shallow embedding of the core of `prefecto` (batched mapped-task dispatch
with kill-switch abort semantics), translated from:

- `src/prefecto/states.py`            (`is_terminal`)
- `src/prefecto/concurrency/kill_switch.py`
  (`AnyFailedSwitch`, `CountSwitch`, `RateSwitch`, `KillSwitchError`)
- `src/prefecto/concurrency/batch_task.py`
  (`BatchTask._make_batches`, `BatchTask._map`, `BatchTask.map`)

Python dynamic values passed as map arguments are modelled by `PyVal`:
a value is either a Prefect `unmapped` broadcast marker, an ordinary
sequence (modelled as a Lean list), or some other, non-iterable value.
A Python keyword mapping is modelled as its association list in the order
produced by `sorted(params.keys())`, so "the first non-unmapped entry"
of the sorted key iteration becomes "the first non-unmapped entry of the
list".  Prefect futures are opaque (`F`); the external executor is
modelled by a function `F → State` giving the state each future settles
into.  Python float arithmetic in `RateSwitch` is modelled over `ℚ`.
-/

/-- Prefect task-run states, as distinguished by `states.py` and the kill
switches.  `running`, `pending` and `scheduled` are representative
non-terminal states. -/
inductive State where
  | completed
  | failed
  | crashed
  | cancelled
  | running
  | pending
  | scheduled
deriving Repr, DecidableEq

namespace State

def is_completed : State → Bool
  | .completed => true
  | _ => false

def is_failed : State → Bool
  | .failed => true
  | _ => false

def is_crashed : State → Bool
  | .crashed => true
  | _ => false

def is_cancelled : State → Bool
  | .cancelled => true
  | _ => false

end State

/-- Embedding of `prefecto.states.is_terminal`: true exactly on Cancelled, Completed,
Crashed, Failed (the `TERMINALS` list). -/
def is_terminal (s : State) : Bool :=
  s.is_cancelled || s.is_completed || s.is_crashed || s.is_failed

/-- The `state.is_failed() or state.is_crashed()` test shared by every
kill switch. -/
def failedOrCrashed (s : State) : Bool :=
  s.is_failed || s.is_crashed

/-- A Python value passed as a map argument to `BatchTask`:
a Prefect `unmapped` broadcast marker, a sequence, or a non-iterable
value. -/
inductive PyVal (α : Type) where
  | unmapped (v : α)
  | list (xs : List α)
  | other (v : α)
deriving Repr, DecidableEq

namespace PyVal

/-- Model of `hasattr(v, "__iter__")`.  Prefect's `unmapped` is a named tuple and
hence iterable; lists are iterable; `other` stands for a non-iterable
value. -/
def hasIter : PyVal α → Bool
  | .other _ => false
  | _ => true

/-- Model of `isinstance(v, unmapped)`. -/
def isBroadcast : PyVal α → Bool
  | .unmapped _ => true
  | _ => false

/-- True when the value is a non-broadcast sequence
(`not isinstance(v, unmapped)` and a list). -/
def isSeq : PyVal α → Bool
  | .list _ => true
  | _ => false

/-- True when the value, if it is a sequence, has length `L`
(non-sequences vacuously pass). -/
def lenOk (L : Nat) : PyVal α → Bool
  | .list xs => xs.length == L
  | _ => true

end PyVal

/-- One batch: the keyword mapping `{p: sliced-or-unmapped}` built for a
single `Task.map` call, as an association list in sorted key order. -/
abbrev Batch (α : Type) := List (String × PyVal α)

/-- The slice `params[p][i*size : (i+1)*size]` applied to one value
(`unmapped` values are passed through unchanged; `other` is unreachable
because `_make_batches` rejects non-iterables first). -/
def sliceVal (size i : Nat) : PyVal α → PyVal α
  | .unmapped v => .unmapped v
  | .list xs => .list ((xs.drop (i * size)).take size)
  | .other v => .other v

/-- The tail slice `params[p][(length // size) * size :]` used for the
remainder batch. -/
def tailVal (start : Nat) : PyVal α → PyVal α
  | .unmapped v => .unmapped v
  | .list xs => .list (xs.drop start)
  | .other v => .other v

/-- The batch built in iteration `i` of the main loop of
`_make_batches`. -/
def sliceBatch (size i : Nat) (ps : Batch α) : Batch α :=
  ps.map (fun p => (p.1, sliceVal size i p.2))

/-- The remainder batch added when `length % size != 0`. -/
def remainderBatch (size length : Nat) (ps : Batch α) : Batch α :=
  ps.map (fun p => (p.1, tailVal ((length / size) * size) p.2))

/-- The batch-building phase of `_make_batches` (lines 145-169): one
batch per `i in range(length // size)`, plus a remainder batch when
`length % size != 0`. -/
def buildBatches (size length : Nat) (ps : Batch α) : List (Batch α) :=
  (List.range (length / size)).map (fun i => sliceBatch size i ps)
    ++ (if length % size ≠ 0 then [remainderBatch size length ps] else [])

/-- Model of the `for j, name in enumerate(parameters)` search for the first
non-`unmapped` entry: returns the first sequence entry's list together with the entries
after it (`parameters[j+1:]`).  `other` entries cannot be the first hit
because `_make_batches` has already rejected non-iterables when this
search runs. -/
def firstSeqSplit : List (String × PyVal α) → Option (List α × List (String × PyVal α))
  | [] => none
  | (_, .list xs) :: rest => some (xs, rest)
  | _ :: rest => firstSeqSplit rest

/-- Embedding of `BatchTask._make_batches`.  `size` is `self.size`; `ps` is the params
mapping as an association list in sorted key order.  Mirrors the source:
reject an empty mapping, reject non-iterables, find the first
non-`unmapped` sequence to fix `length`, reject later sequences of a
different length, then build the batches. -/
def makeBatches (size : Nat) (ps : List (String × PyVal α)) :
    Except String (List (Batch α)) :=
  if ps.isEmpty then
    .error ("Must provide at least one iterable.")
  else if ps.any (fun p => !p.2.hasIter) then
    .error ("Expected an iterable.")
  else
    match firstSeqSplit ps with
    | none => .error ("Must provide at least one non-unmapped iterable.")
    | some (xs, rest) =>
      if rest.any (fun p =>
          match p.2 with
          | .list ys => ys.length != xs.length
          | _ => false) then
        .error ("Expected all iterables to be of equal length.")
      else
        .ok (buildBatches size xs.length ps)

/-- The length of the lexicographically-first non-broadcast sequence in
the mapping (the reference length of the validation). -/
def firstSeqLength : List (String × PyVal α) → Option Nat
  | [] => none
  | (_, .list xs) :: _ => some xs.length
  | _ :: rest => firstSeqLength rest

/-- A kill switch instance together with its mutable counters:
`AnyFailedSwitch` (stateless), `CountSwitch(max_count)` with its
`_current_count`, and `RateSwitch(min_sample, max_fail_rate)` with its
`_current_count` and `_failed_count`.  `max_fail_rate` (a Python float)
is modelled over `ℚ`. -/
inductive KS where
  | anyFailed
  | countSwitch (maxCount currentCount : Nat)
  | rateSwitch (minSample : Nat) (maxFailRate : ℚ) (currentCount failedCount : Nat)
deriving Repr, DecidableEq

namespace KS

/-- Embedding of `should_flip_switch`: advance the counters by one observed state and
return the new instance state together with the returned boolean.

- `AnyFailedSwitch`: `state.is_failed() or state.is_crashed()`.
- `CountSwitch`: increment `_current_count` on failed/crashed, return
  `_current_count >= max_count`.
- `RateSwitch`: increment `_current_count` always and `_failed_count` on
  failed/crashed, return
  `_current_count >= min_sample and _failed_count / _current_count >= max_fail_rate`. -/
def shouldFlipSwitch : KS → State → KS × Bool
  | .anyFailed, s => (.anyFailed, failedOrCrashed s)
  | .countSwitch m c, s =>
    let c' := if failedOrCrashed s then c + 1 else c
    (.countSwitch m c', decide (m ≤ c'))
  | .rateSwitch ms r c f, s =>
    let c' := c + 1
    let f' := if failedOrCrashed s then f + 1 else f
    (.rateSwitch ms r c' f', decide (ms ≤ c' ∧ r ≤ (f' : ℚ) / (c' : ℚ)))

/-- Embedding of `raise_if_triggered`: call `should_flip_switch` and raise a
`KillSwitchError` carrying the (updated) kill switch instance when it
returns true, otherwise continue with the updated instance. -/
def raiseIfTriggered (k : KS) (s : State) : Except KS KS :=
  let r := k.shouldFlipSwitch s
  if r.2 then .error r.1 else .ok r.1

/-- The successive results of feeding a list of states to
`should_flip_switch`, with the final instance state. -/
def observe : KS → List State → KS × List Bool
  | k, [] => (k, [])
  | k, s :: rest =>
    let r := k.shouldFlipSwitch s
    let w := r.1.observe rest
    (w.1, r.2 :: w.2)

end KS

/-- The kill-switch loop of `BatchTask._map` (lines 257-259): call
`raise_if_triggered` on each future's state in submission order,
propagating the first `KillSwitchError`. -/
def checkBatch : KS → List State → Except KS KS
  | k, [] => .ok k
  | k, s :: rest =>
    match k.raiseIfTriggered s with
    | .error e => .error e
    | .ok k' => checkBatch k' rest

/-- Folding `checkBatch` over a sequence of batches of states: the kill
switch state after the dispatcher has cleared those batches, or the
`KillSwitchError` it raised. -/
def ksAfter : KS → List (List State) → Except KS KS
  | k, [] => .ok k
  | k, b :: rest =>
    match checkBatch k b with
    | .error e => .error e
    | .ok k' => ksAfter k' rest

/-- Lifting of `ksAfter` to an optional kill switch (`BatchTask` with
`kill_switch=None` performs no evaluation at all). -/
def ksAfterOpt : Option KS → List (List State) → Except KS (Option KS)
  | none, _ => .ok none
  | some k, bs => (ksAfter k bs).map some

/-- The loop of `BatchTask._map` over a non-empty batch list, with the
futures each `task.map` call returns already materialised (`F` is the
opaque future type and `st` the terminal state the executor eventually
assigns to each future).

For every batch except the last: submit it (extend `acc`, record it in
`sub`), busy-poll until every future of the batch is terminal — since
`st` is fixed, a non-terminal state means the `while is_processing` loop
never exits, modelled as `none` — then, when a kill switch is
configured, run it over the batch's states in submission order, aborting
on a `KillSwitchError`.  The last batch is submitted with no poll and no
kill-switch evaluation.

Returns the raised error or the accumulated futures, the list of batches
submitted to the executor, and the final kill-switch instance. -/
def mapGo (st : F → State) :
    Option KS → List F → List (List F) → List (List F) →
    Option (Except KS (List F) × List (List F) × Option KS)
  | ks?, acc, sub, [] => some (.ok acc, sub, ks?)
  | ks?, acc, sub, [b] => some (.ok (acc ++ b), sub ++ [b], ks?)
  | ks?, acc, sub, b :: b' :: rest =>
    if b.all (fun f => is_terminal (st f)) then
      match ks? with
      | none => mapGo st none (acc ++ b) (sub ++ [b]) (b' :: rest)
      | some k =>
        match checkBatch k (b.map st) with
        | .error e => some (.error e, sub ++ [b], some e)
        | .ok k' => mapGo st (some k') (acc ++ b) (sub ++ [b]) (b' :: rest)
    else
      none

/-- Embedding of `BatchTask._map`: empty batch list returns `[]` immediately,
otherwise run the batch loop. -/
def dispatch (st : F → State) (ks : Option KS) (batches : List (List F)) :
    Option (Except KS (List F) × List (List F) × Option KS) :=
  if batches.isEmpty then some (.ok [], [], ks) else mapGo st ks [] [] batches

/-- An error escaping `BatchTask.map`: either a `ValueError` from
`_make_batches` or a `KillSwitchError` from `_map`. -/
inductive MapError where
  | valueError (msg : String)
  | killSwitch (k : KS)
deriving Repr, DecidableEq

/-- Embedding of `BatchTask.map` (after parameter binding): partition the params with
`_make_batches` — a `ValueError` propagates before anything is submitted
— then hand the batches to `_map`.  `toFut` models the external
`task.map` facility turning one batch into its list of futures. -/
def taskMapRun (size : Nat) (ps : List (String × PyVal α)) (st : F → State)
    (ks : Option KS) (toFut : Batch α → List F) :
    Option (Except MapError (List F) × List (List F) × Option KS) :=
  match makeBatches size ps with
  | .error e => some (.error (.valueError e), [], ks)
  | .ok bs =>
    match dispatch st ks (bs.map toFut) with
    | none => none
    | some (.error k, sub, kf) => some (.error (.killSwitch k), sub, kf)
    | some (.ok fs, sub, kf) => some (.ok fs, sub, kf)

/-- The worked example mapping of the spec: a=[1,2,3,4,5], b=[2,3,4,5,6]. -/
def exampleParams : List (String × PyVal Nat) :=
  [("a", PyVal.list [1, 2, 3, 4, 5]), ("b", PyVal.list [2, 3, 4, 5, 6])]

/-- The empty-sequence mapping a=[], b=[]. -/
def emptyParams : List (String × PyVal Nat) :=
  [("a", PyVal.list []), ("b", PyVal.list [])]

/-- An executor assigning every future the Failed state. -/
def constStFailed : Nat → State := fun _ => State.failed

/-- An executor leaving every future in the non-terminal Running state. -/
def constStRunning : Nat → State := fun _ => State.running

/-- An executor where only future 0 completes and all others fail. -/
def stLastFails : Nat → State := fun n => if n = 0 then State.completed else State.failed

/-- A trivial stand-in for the external `task.map` facility. -/
def noFut : Batch Nat → List Nat := fun _ => []

/-- The sequence held at position `j` of a batch (empty when the entry is
not a sequence). -/
def entrySeqAt (b : Batch α) (j : Nat) : List α :=
  match b[j]? with
  | some (_, PyVal.list xs) => xs
  | _ => []

theorem numBatches_eq (L size : Nat) (h : 0 < size) :
    L / size + (if L % size ≠ 0 then 1 else 0) = (L + size - 1) / size := by
  have hd := Nat.div_add_mod L size
  have hmlt : L % size < size := Nat.mod_lt _ h
  by_cases hr : L % size = 0
  · have h1 : L + size - 1 = size * (L / size) + (size - 1) := by omega
    rw [h1, Nat.mul_add_div h, Nat.div_eq_of_lt (show size - 1 < size by omega)]
    simp [hr]
  · have h1 : L + size - 1 = size * (L / size + 1) + (L % size - 1) := by
      rw [Nat.mul_succ]; omega
    rw [h1, Nat.mul_add_div h, Nat.div_eq_of_lt (show L % size - 1 < size by omega)]
    simp [hr]

theorem le_numBatches_mul (L size : Nat) (h : 0 < size) :
    L ≤ ((L + size - 1) / size) * size := by
  have hd := Nat.div_add_mod L size
  have hmlt : L % size < size := Nat.mod_lt _ h
  rw [← numBatches_eq L size h]
  by_cases hr : L % size = 0
  · simp only [hr, ne_eq, not_true_eq_false, if_false, Nat.add_zero]
    have hc : (L / size) * size = size * (L / size) := Nat.mul_comm _ _
    omega
  · simp only [hr, ne_eq, not_false_eq_true, if_true]
    have hc : (L / size + 1) * size = size * (L / size) + size := by
      rw [Nat.succ_mul, Nat.mul_comm]
    omega

theorem flatten_slices (size : Nat) (xs : List α) (n : Nat) :
    ((List.range n).map (fun i => (xs.drop (i * size)).take size)).flatten
      = xs.take (n * size) := by
  induction n with
  | zero => simp
  | succ n ih =>
    rw [List.range_succ, List.map_append, List.flatten_append, ih]
    simp only [List.map_cons, List.map_nil, List.flatten_cons, List.flatten_nil,
      List.append_nil]
    rw [Nat.succ_mul, List.take_add]

theorem buildBatches_eq_range (size L : Nat) (hsize : 0 < size) (ps : Batch α)
    (hlen : ∀ p ∈ ps, p.2.lenOk L = true) :
    buildBatches size L ps
      = (List.range ((L + size - 1) / size)).map (fun i => sliceBatch size i ps) := by
  have hd := Nat.div_add_mod L size
  have hmlt : L % size < size := Nat.mod_lt _ hsize
  by_cases hr : L % size = 0
  · have hceil : (L + size - 1) / size = L / size := by
      rw [← numBatches_eq L size hsize]; simp [hr]
    rw [hceil]
    unfold buildBatches
    simp [hr]
  · have hceil : (L + size - 1) / size = L / size + 1 := by
      rw [← numBatches_eq L size hsize]; simp [hr]
    rw [hceil, List.range_succ, List.map_append]
    unfold buildBatches
    rw [if_pos hr]
    congr 1
    simp only [List.map_cons, List.map_nil]
    congr 1
    unfold remainderBatch sliceBatch
    apply List.map_congr_left
    intro p hp
    cases hv : p.2 with
    | unmapped v => simp [tailVal, sliceVal]
    | other v => simp [tailVal, sliceVal]
    | list ys =>
      have hL : ys.length = L := by
        have := hlen p hp
        rw [hv] at this
        simpa [PyVal.lenOk] using this
      simp only [tailVal, sliceVal, Prod.mk.injEq, true_and]
      congr 1
      rw [List.take_of_length_le]
      rw [List.length_drop, hL]
      have hc : L / size * size = size * (L / size) := Nat.mul_comm _ _
      omega

theorem firstSeqSplit_of_exists {α : Type} {ps : List (String × PyVal α)}
    (h : ∃ p ∈ ps, p.2.isSeq = true) :
    ∃ xs rest, firstSeqSplit ps = some (xs, rest) := by
  induction ps with
  | nil => simp at h
  | cons hd tl ih =>
    obtain ⟨k, v⟩ := hd
    cases v with
    | list xs => exact ⟨xs, tl, rfl⟩
    | unmapped w =>
      obtain ⟨p, hp, hseq⟩ := h
      rcases List.mem_cons.mp hp with heq | hmem
      · subst heq; simp [PyVal.isSeq] at hseq
      · exact ih ⟨p, hmem, hseq⟩
    | other w =>
      obtain ⟨p, hp, hseq⟩ := h
      rcases List.mem_cons.mp hp with heq | hmem
      · subst heq; simp [PyVal.isSeq] at hseq
      · exact ih ⟨p, hmem, hseq⟩

theorem firstSeqSplit_decomp {α : Type} {ps : List (String × PyVal α)}
    {xs : List α} {rest : List (String × PyVal α)}
    (h : firstSeqSplit ps = some (xs, rest)) :
    ∃ pre k, ps = pre ++ (k, PyVal.list xs) :: rest
      ∧ ∀ p ∈ pre, p.2.isSeq = false := by
  induction ps generalizing xs rest with
  | nil => simp [firstSeqSplit] at h
  | cons hd tl ih =>
    obtain ⟨k, v⟩ := hd
    cases v with
    | list ys =>
      rw [show firstSeqSplit ((k, PyVal.list ys) :: tl) = some (ys, tl) from rfl] at h
      have h' : (ys, tl) = (xs, rest) := Option.some.inj h
      have h1 : ys = xs := congrArg Prod.fst h'
      have h2 : tl = rest := congrArg Prod.snd h'
      exact ⟨[], k, by rw [← h1, ← h2]; rfl, by intro p hp; simp at hp⟩
    | unmapped w =>
      obtain ⟨pre, k', hps, hpre⟩ := ih h
      exact ⟨(k, PyVal.unmapped w) :: pre, k', by rw [hps]; rfl, by
        intro p hp
        rcases List.mem_cons.mp hp with heq | hmem
        · subst heq; rfl
        · exact hpre p hmem⟩
    | other w =>
      obtain ⟨pre, k', hps, hpre⟩ := ih h
      exact ⟨(k, PyVal.other w) :: pre, k', by rw [hps]; rfl, by
        intro p hp
        rcases List.mem_cons.mp hp with heq | hmem
        · subst heq; rfl
        · exact hpre p hmem⟩

theorem makeBatches_ok {α : Type} {L : Nat} {ps : List (String × PyVal α)} (size : Nat)
    (hiter : ∀ p ∈ ps, p.2.hasIter = true)
    (hseq : ∃ p ∈ ps, p.2.isSeq = true)
    (hlen : ∀ p ∈ ps, p.2.lenOk L = true) :
    makeBatches size ps = Except.ok (buildBatches size L ps) := by
  obtain ⟨xs, rest, hsplit⟩ := firstSeqSplit_of_exists hseq
  obtain ⟨pre, k, hps, hpre⟩ := firstSeqSplit_decomp hsplit
  have hmem : (k, PyVal.list xs) ∈ ps := by
    rw [hps]; exact List.mem_append_right _ (List.mem_cons_self _ _)
  have hxsL : xs.length = L := by
    simpa [PyVal.lenOk] using hlen _ hmem
  have hmis : (rest.any fun p =>
      match p.2 with
      | PyVal.list ys => ys.length != L
      | _ => false) = false := by
    rw [List.any_eq_false]
    intro p hp
    have hpps : p ∈ ps := by
      rw [hps]; exact List.mem_append_right _ (List.mem_cons_of_mem _ hp)
    cases hv : p.2 with
    | list ys =>
      have hyL : ys.length = L := by
        have := hlen _ hpps
        rw [hv] at this
        simpa [PyVal.lenOk] using this
      simp [hv, hyL]
    | unmapped w => simp [hv]
    | other w => simp [hv]
  unfold makeBatches
  rw [if_neg (by simp [hps]), if_neg ?hiters, hsplit]
  case hiters =>
    intro hany
    obtain ⟨p, hp, hbad⟩ := List.any_eq_true.mp hany
    rw [hiter p hp] at hbad
    simp at hbad
  simp only [hxsL, hmis, Bool.false_eq_true, if_false]

/-- C1: for every positive batch size and every params mapping whose
non-broadcast entries are sequences of equal length `L` (the `_make_batches`
contract: at least one sequence, no non-iterable entry), `_make_batches`
succeeds with exactly `ceil(L / size)` batches; the `i`-th batch maps every
sequence entry to the slice `[i*size, (i+1)*size)` and every broadcast entry
to itself unchanged; and concatenating a sequence parameter's slices across
the batches in order reconstructs the original sequence exactly. -/
theorem makeBatches_partition_roundtrip {α : Type} (size L : Nat)
    (ps : List (String × PyVal α)) (hsize : 0 < size)
    (hiter : ∀ p ∈ ps, p.2.hasIter = true)
    (hseq : ∃ p ∈ ps, p.2.isSeq = true)
    (hlen : ∀ p ∈ ps, p.2.lenOk L = true) :
    ∃ bs, makeBatches size ps = Except.ok bs
      ∧ bs.length = (L + size - 1) / size
      ∧ (∀ i, (hi : i < bs.length) → bs.get ⟨i, hi⟩
          = ps.map (fun p => (p.1, sliceVal size i p.2)))
      ∧ (∀ (j : Nat) (k : String) (xs : List α), ps[j]? = some (k, PyVal.list xs) →
          (bs.map (fun b => entrySeqAt b j)).flatten = xs)
      ∧ (∀ (j : Nat) (k : String) (v : α), ps[j]? = some (k, PyVal.unmapped v) →
          ∀ b ∈ bs, b[j]? = some (k, PyVal.unmapped v)) := by
  refine ⟨buildBatches size L ps, makeBatches_ok size hiter hseq hlen, ?_, ?_, ?_, ?_⟩
  · rw [buildBatches_eq_range size L hsize ps hlen]
    simp
  · rw [buildBatches_eq_range size L hsize ps hlen]
    intro i hi
    rw [List.get_eq_getElem, List.getElem_map, List.getElem_range]
    rfl
  · intro j k xs hj
    have hmem : (k, PyVal.list xs) ∈ ps := List.getElem?_mem hj
    have hxsL : xs.length = L := by
      simpa [PyVal.lenOk] using hlen _ hmem
    rw [buildBatches_eq_range size L hsize ps hlen, List.map_map]
    have he : ∀ i, ((fun b => entrySeqAt b j) ∘ fun i => sliceBatch size i ps) i
        = (xs.drop (i * size)).take size := by
      intro i
      simp only [Function.comp_apply]
      unfold entrySeqAt sliceBatch
      rw [List.getElem?_map, hj]
      rfl
    rw [List.map_congr_left (fun i _ => he i), flatten_slices,
      List.take_of_length_le (by rw [hxsL]; exact le_numBatches_mul L size hsize)]
  · intro j k v hj b hb
    rw [buildBatches_eq_range size L hsize ps hlen] at hb
    obtain ⟨i, _, hbi⟩ := List.mem_map.mp hb
    subst hbi
    unfold sliceBatch
    rw [List.getElem?_map, hj]
    rfl

theorem firstSeqSplit_eq_none {α : Type} {ps : List (String × PyVal α)} :
    firstSeqSplit ps = none ↔ ∀ p ∈ ps, p.2.isSeq = false := by
  induction ps with
  | nil => simp [firstSeqSplit]
  | cons hd tl ih =>
    obtain ⟨k, v⟩ := hd
    cases v with
    | list xs => simp [firstSeqSplit, PyVal.isSeq]
    | unmapped w =>
      rw [show firstSeqSplit ((k, PyVal.unmapped w) :: tl) = firstSeqSplit tl from rfl]
      simp [ih, PyVal.isSeq]
    | other w =>
      rw [show firstSeqSplit ((k, PyVal.other w) :: tl) = firstSeqSplit tl from rfl]
      simp [ih, PyVal.isSeq]

theorem firstSeqLength_eq {α : Type} (ps : List (String × PyVal α)) :
    firstSeqLength ps = Option.map (fun q => q.1.length) (firstSeqSplit ps) := by
  induction ps with
  | nil => rfl
  | cons hd tl ih =>
    obtain ⟨k, v⟩ := hd
    cases v with
    | list xs => rfl
    | unmapped w => exact ih
    | other w => exact ih

theorem makeBatches_ok_facts {α : Type} {size : Nat} {ps : List (String × PyVal α)}
    {bs : List (Batch α)} (h : makeBatches size ps = Except.ok bs) :
    ps ≠ [] ∧ (∀ p ∈ ps, p.2.hasIter = true) ∧
    (∃ xs rest, firstSeqSplit ps = some (xs, rest) ∧
      (rest.any fun p =>
        match p.2 with
        | PyVal.list ys => ys.length != xs.length
        | _ => false) = false) := by
  by_cases h1 : ps.isEmpty = true
  · unfold makeBatches at h; rw [if_pos h1] at h; simp at h
  by_cases h2 : (ps.any fun p => !p.2.hasIter) = true
  · unfold makeBatches at h; rw [if_neg h1, if_pos h2] at h; simp at h
  rcases hsp : firstSeqSplit ps with _ | ⟨xs, rest⟩
  · unfold makeBatches at h
    rw [if_neg h1, if_neg h2] at h
    simp only [hsp] at h
    simp at h
  by_cases h3 : (rest.any fun p =>
      match p.2 with
      | PyVal.list ys => ys.length != xs.length
      | _ => false) = true
  · unfold makeBatches at h
    rw [if_neg h1, if_neg h2] at h
    simp only [hsp] at h
    rw [if_pos h3] at h
    simp at h
  refine ⟨by simpa using h1, ?_, xs, rest, rfl, by simpa using h3⟩
  intro p hp
  have hfalse : (ps.any fun p => !p.2.hasIter) = false := by
    cases hh : (ps.any fun p => !p.2.hasIter) with
    | false => rfl
    | true => exact absurd hh h2
  have := List.any_eq_false.mp hfalse p hp
  simpa using this

/-- C3: `_make_batches` raises a `ValueError` exactly when the params mapping
is empty, or some entry is not iterable, or every entry is a broadcast
`unmapped` value, or some non-broadcast sequence's length differs from the
length of the lexicographically-first non-broadcast sequence; and whenever it
raises, `BatchTask.map` propagates that error with no batch submitted and the
kill switch untouched. -/
theorem makeBatches_error_characterisation {α : Type} (size : Nat)
    (ps : List (String × PyVal α)) :
    ((∃ e, makeBatches size ps = Except.error e) ↔
      (ps = []
        ∨ (∃ p ∈ ps, p.2.hasIter = false)
        ∨ (∀ p ∈ ps, p.2.isBroadcast = true)
        ∨ (∃ L, firstSeqLength ps = some L ∧ ∃ p ∈ ps, p.2.lenOk L = false)))
    ∧ (∀ (F : Type) (e : String) (st : F → State) (ks : Option KS)
        (toFut : Batch α → List F),
        makeBatches size ps = Except.error e →
        taskMapRun size ps st ks toFut
          = some (Except.error (MapError.valueError e), [], ks)) := by
  constructor
  · constructor
    · rintro ⟨e, he⟩
      by_cases h1 : ps.isEmpty = true
      · exact Or.inl (by simpa using h1)
      by_cases h2 : (ps.any fun p => !p.2.hasIter) = true
      · obtain ⟨p, hp, hb⟩ := List.any_eq_true.mp h2
        exact Or.inr (Or.inl ⟨p, hp, by simpa using hb⟩)
      have h2false : (ps.any fun p => !p.2.hasIter) = false := by
        cases hh : (ps.any fun p => !p.2.hasIter) with
        | false => rfl
        | true => exact absurd hh h2
      rcases hsp : firstSeqSplit ps with _ | ⟨xs, rest⟩
      · refine Or.inr (Or.inr (Or.inl ?_))
        intro p hp
        have hnseq := firstSeqSplit_eq_none.mp hsp p hp
        have hit : p.2.hasIter = true := by
          simpa using List.any_eq_false.mp h2false p hp
        cases hv : p.2 with
        | unmapped w => rfl
        | list ys => rw [hv] at hnseq; simp [PyVal.isSeq] at hnseq
        | other w => rw [hv] at hit; simp [PyVal.hasIter] at hit
      · by_cases h3 : (rest.any fun p =>
            match p.2 with
            | PyVal.list ys => ys.length != xs.length
            | _ => false) = true
        · refine Or.inr (Or.inr (Or.inr ⟨xs.length, ?_, ?_⟩))
          · rw [firstSeqLength_eq, hsp]
            rfl
          · obtain ⟨p, hp, hb⟩ := List.any_eq_true.mp h3
            obtain ⟨pre, k, hps, hpre⟩ := firstSeqSplit_decomp hsp
            refine ⟨p, by
              rw [hps]; exact List.mem_append_right _ (List.mem_cons_of_mem _ hp), ?_⟩
            cases hv : p.2 with
            | list ys =>
              rw [hv] at hb
              simp only [PyVal.lenOk]
              simpa using hb
            | unmapped w => rw [hv] at hb; simp at hb
            | other w => rw [hv] at hb; simp at hb
        · exfalso
          unfold makeBatches at he
          rw [if_neg h1, if_neg h2] at he
          simp only [hsp] at he
          rw [if_neg h3] at he
          simp at he
    · intro hrhs
      rcases hmk : makeBatches size ps with e | bs
      · exact ⟨e, rfl⟩
      · exfalso
        obtain ⟨hne, hiter, xs, rest, hsp, hmis⟩ := makeBatches_ok_facts hmk
        rcases hrhs with h | h | h | h
        · exact hne h
        · obtain ⟨p, hp, hb⟩ := h
          rw [hiter p hp] at hb
          simp at hb
        · obtain ⟨pre, k, hps, hpre⟩ := firstSeqSplit_decomp hsp
          have := h (k, PyVal.list xs)
            (by rw [hps]; exact List.mem_append_right _ (List.mem_cons_self _ _))
          simp [PyVal.isBroadcast] at this
        · obtain ⟨L, hL, p, hp, hlenf⟩ := h
          rw [firstSeqLength_eq, hsp] at hL
          have hLxs : xs.length = L := by simpa using hL
          obtain ⟨pre, k, hps, hpre⟩ := firstSeqSplit_decomp hsp
          rw [hps] at hp
          rcases List.mem_append.mp hp with hp' | hp'
          · have hns := hpre p hp'
            cases hv : p.2 with
            | list ys => rw [hv] at hns; simp [PyVal.isSeq] at hns
            | unmapped w => rw [hv] at hlenf; simp [PyVal.lenOk] at hlenf
            | other w => rw [hv] at hlenf; simp [PyVal.lenOk] at hlenf
          · rcases List.mem_cons.mp hp' with heq | hp''
            · subst heq
              simp [PyVal.lenOk, hLxs] at hlenf
            · have hok := List.any_eq_false.mp hmis p hp''
              cases hv : p.2 with
              | list ys =>
                rw [hv] at hok hlenf
                simp only [PyVal.lenOk] at hlenf
                simp only [bne_iff_ne, ne_eq, not_not] at hok
                rw [hok, hLxs] at hlenf
                simp at hlenf
              | unmapped w => rw [hv] at hlenf; simp [PyVal.lenOk] at hlenf
              | other w => rw [hv] at hlenf; simp [PyVal.lenOk] at hlenf
  · intro F e st ks toFut hmk
    unfold taskMapRun
    rw [hmk]

theorem mapGo_error {F : Type} (st : F → State) :
    ∀ (N : Nat) (batches : List (List F)) (k0 kN ke : KS) (acc : List F)
      (sub : List (List F)) (bN : List F),
      N + 1 < batches.length →
      (∀ b ∈ batches.take (N + 1), ∀ f ∈ b, is_terminal (st f) = true) →
      ksAfter k0 ((batches.take N).map (fun b => b.map st)) = Except.ok kN →
      batches[N]? = some bN →
      checkBatch kN (bN.map st) = Except.error ke →
      mapGo st (some k0) acc sub batches
        = some (Except.error ke, sub ++ batches.take (N + 1), some ke) := by
  intro N
  induction N with
  | zero =>
    intro batches k0 kN ke acc sub bN hlen hterm hpre hN htrig
    rcases batches with _ | ⟨b, rest⟩
    · simp at hlen
    rcases rest with _ | ⟨b', rest'⟩
    · simp at hlen
    have hbb : b = bN := by simpa using hN
    have hkk : k0 = kN := by simpa [ksAfter] using hpre
    rw [← hbb, ← hkk] at htrig
    have hterm' : (b.all fun f => is_terminal (st f)) = true := by
      rw [List.all_eq_true]
      intro f hf
      exact hterm b (by simp) f hf
    simp only [mapGo]
    rw [if_pos hterm']
    simp only [htrig]
    simp
  | succ N ih =>
    intro batches k0 kN ke acc sub bN hlen hterm hpre hN htrig
    rcases batches with _ | ⟨b, rest⟩
    · simp at hlen
    rcases rest with _ | ⟨b', rest'⟩
    · simp at hlen
    have hterm' : (b.all fun f => is_terminal (st f)) = true := by
      rw [List.all_eq_true]
      intro f hf
      exact hterm b (by simp [List.take_succ_cons]) f hf
    have hpre' := hpre
    rw [List.take_succ_cons, List.map_cons] at hpre'
    rw [show ksAfter k0 ((b.map st) :: (List.map (fun b => b.map st)
      ((b' :: rest').take N))) = (match checkBatch k0 (b.map st) with
        | Except.error e => Except.error e
        | Except.ok k' => ksAfter k' (List.map (fun b => b.map st)
            ((b' :: rest').take N))) from rfl] at hpre'
    rcases hc : checkBatch k0 (b.map st) with e | k1
    · rw [hc] at hpre'
      simp at hpre'
    · rw [hc] at hpre'
      simp only [mapGo]
      rw [if_pos hterm']
      simp only [hc]
      rw [ih (b' :: rest') k1 kN ke (acc ++ b) (sub ++ [b]) bN
        (by simpa using hlen)
        (by intro bb hbb f hf
            exact hterm bb
              (by rw [List.take_succ_cons]; exact List.mem_cons_of_mem _ hbb) f hf)
        (by simpa using hpre')
        (by simpa using hN)
        htrig]
      rw [List.take_succ_cons]
      simp

theorem mapGo_ok {F : Type} (st : F → State) :
    ∀ (batches : List (List F)) (ks kfin : Option KS) (acc : List F)
      (sub : List (List F)),
      batches ≠ [] →
      (∀ b ∈ batches.dropLast, ∀ f ∈ b, is_terminal (st f) = true) →
      ksAfterOpt ks (batches.dropLast.map (fun b => b.map st)) = Except.ok kfin →
      mapGo st ks acc sub batches
        = some (Except.ok (acc ++ batches.flatten), sub ++ batches, kfin) := by
  intro batches
  induction batches with
  | nil => intro ks kfin acc sub h; exact absurd rfl h
  | cons b rest ih =>
    intro ks kfin acc sub _ hterm hks
    rcases rest with _ | ⟨b', rest'⟩
    · have hkfin : ks = kfin := by
        rcases ks with _ | k
        · simpa [ksAfterOpt] using hks
        · simpa [ksAfterOpt, ksAfter, Except.map] using hks
      subst hkfin
      simp [mapGo]
    · have hterm' : (b.all fun f => is_terminal (st f)) = true := by
        rw [List.all_eq_true]
        intro f hf
        refine hterm b ?_ f hf
        rw [List.dropLast_cons_of_ne_nil (by simp)]
        exact List.mem_cons_self _ _
      have hdl : (b :: b' :: rest').dropLast = b :: (b' :: rest').dropLast := by
        rw [List.dropLast_cons_of_ne_nil (by simp)]
      rw [hdl] at hks
      have htermR : ∀ bb ∈ (b' :: rest').dropLast, ∀ f ∈ bb, is_terminal (st f) = true := by
        intro bb hbb f hf
        refine hterm bb ?_ f hf
        rw [hdl]
        exact List.mem_cons_of_mem _ hbb
      rcases ks with _ | k
      · have hkfin : kfin = none := by simpa [ksAfterOpt] using hks.symm
        subst hkfin
        simp only [mapGo]
        rw [if_pos hterm']
        rw [ih (none) none (acc ++ b) (sub ++ [b]) (by simp) htermR
          (by simp [ksAfterOpt])]
        simp
      · rw [List.map_cons] at hks
        rw [show ksAfterOpt (some k) ((b.map st) :: (List.map (fun b => b.map st)
          (b' :: rest').dropLast)) = (Except.map some (match checkBatch k (b.map st) with
            | Except.error e => Except.error e
            | Except.ok k' => ksAfter k' (List.map (fun b => b.map st)
                (b' :: rest').dropLast))) from rfl] at hks
        rcases hc : checkBatch k (b.map st) with e | k1
        · rw [hc] at hks
          simp [Except.map] at hks
        · rw [hc] at hks
          simp only [mapGo]
          rw [if_pos hterm']
          simp only [hc]
          rw [ih (some k1) kfin (acc ++ b) (sub ++ [b]) (by simp) htermR
            (by simpa [ksAfterOpt] using hks)]
          simp

/-- C4: with a kill switch configured, every future of batches `0..N`
terminal (the busy-poll gate of `_map`), the in-order kill-switch fold
clearing batches `0..N-1` and raising on the non-final batch `N`, the
dispatch propagates the `KillSwitchError` carrying the triggering kill-switch
instance and exactly batches `0..N` were submitted: no batch after `N` is
ever submitted. -/
theorem dispatch_killSwitch_abort {F : Type} (st : F → State) (k0 kN ke : KS)
    (batches : List (List F)) (N : Nat) (bN : List F)
    (hN : N + 1 < batches.length)
    (hterm : ∀ b ∈ batches.take (N + 1), ∀ f ∈ b, is_terminal (st f) = true)
    (hpre : ksAfter k0 ((batches.take N).map (fun b => b.map st)) = Except.ok kN)
    (hbN : batches[N]? = some bN)
    (htrig : checkBatch kN (bN.map st) = Except.error ke) :
    dispatch st (some k0) batches
      = some (Except.error ke, batches.take (N + 1), some ke) := by
  unfold dispatch
  rw [if_neg (by
    rcases batches with _ | ⟨b, rest⟩
    · simp at hN
    · simp)]
  simpa using mapGo_error st N batches k0 kN ke [] [] bN hN hterm hpre hbN htrig

/-- C5: for every non-empty batch list whose non-final batches are all
terminal and clear the optional kill switch, the dispatch submits every
batch and returns the futures of all batches in partition order; nothing
constrains the final batch's states: it is submitted without completion
polling and without kill-switch evaluation. -/
theorem dispatch_final_batch_unpolled {F : Type} (st : F → State) (ks kfin : Option KS)
    (batches : List (List F))
    (hne : batches ≠ [])
    (hterm : ∀ b ∈ batches.dropLast, ∀ f ∈ b, is_terminal (st f) = true)
    (hks : ksAfterOpt ks (batches.dropLast.map (fun b => b.map st)) = Except.ok kfin) :
    dispatch st ks batches = some (Except.ok batches.flatten, batches, kfin) := by
  unfold dispatch
  rw [if_neg (by simpa using hne)]
  simpa using mapGo_ok st batches ks kfin [] [] hne hterm hks

theorem buildBatches_zero {α : Type} (size : Nat) (ps : Batch α) :
    buildBatches size 0 ps = [] := by
  simp [buildBatches, Nat.zero_div, Nat.zero_mod]

/-- C9: when every non-broadcast sequence is empty (common length 0),
`_make_batches` returns an empty batch list, and `_map` on an empty batch
list returns an empty result immediately: nothing is submitted and the kill
switch is returned untouched. -/
theorem makeBatches_zero_length_empty_dispatch {α : Type} (size : Nat)
    (ps : List (String × PyVal α))
    (hiter : ∀ p ∈ ps, p.2.hasIter = true)
    (hseq : ∃ p ∈ ps, p.2.isSeq = true)
    (hlen : ∀ p ∈ ps, p.2.lenOk 0 = true) :
    makeBatches size ps = Except.ok []
    ∧ ∀ (F : Type) (st : F → State) (ks : Option KS),
        dispatch st ks ([] : List (List F)) = some (Except.ok [], [], ks) := by
  constructor
  · rw [makeBatches_ok size hiter hseq hlen, buildBatches_zero]
  · intro F st ks
    rfl

theorem buildBatches_single {α : Type} (size L : Nat) (ps : Batch α)
    (hsize : 0 < size) (hL : 0 < L) (hLs : L ≤ size)
    (hlen : ∀ p ∈ ps, p.2.lenOk L = true) :
    buildBatches size L ps = [ps] := by
  rw [buildBatches_eq_range size L hsize ps hlen]
  have hceil : (L + size - 1) / size = 1 := by
    rw [← numBatches_eq L size hsize]
    rcases Nat.lt_or_ge L size with h | h
    · rw [Nat.div_eq_of_lt h, Nat.mod_eq_of_lt h]
      simp [Nat.pos_iff_ne_zero.mp hL]
    · have hEq : L = size := Nat.le_antisymm hLs h
      subst hEq
      simp [Nat.div_self hsize, Nat.mod_self]
  rw [hceil]
  rw [show List.range 1 = [0] from rfl]
  simp only [List.map_cons, List.map_nil]
  congr 1
  unfold sliceBatch
  have hid : ∀ p ∈ ps, (p.1, sliceVal size 0 p.2) = p := by
    intro p hp
    have hsv : sliceVal size 0 p.2 = p.2 := by
      cases hv : p.2 with
      | unmapped v => rfl
      | other v => rfl
      | list xs =>
        have hxl : xs.length = L := by
          have := hlen p hp
          rw [hv] at this
          simpa [PyVal.lenOk] using this
        simp only [sliceVal, Nat.zero_mul, List.drop_zero]
        rw [List.take_of_length_le (by omega)]
    rw [hsv]
  rw [List.map_congr_left hid]
  exact List.map_id ps

/-- C10: when `0 < L ≤ size` the partition is the single batch holding the
whole mapping, and a dispatch of exactly one batch returns that batch's
futures with the batch submitted, for every state assignment (even
non-terminal ones, so no future is polled) and every kill switch, whose
state is returned unchanged (its counters are never advanced). -/
theorem single_batch_skips_killSwitch {α : Type} (size L : Nat)
    (ps : List (String × PyVal α))
    (hsize : 0 < size) (hL : 0 < L) (hLs : L ≤ size)
    (hiter : ∀ p ∈ ps, p.2.hasIter = true)
    (hseq : ∃ p ∈ ps, p.2.isSeq = true)
    (hlen : ∀ p ∈ ps, p.2.lenOk L = true) :
    makeBatches size ps = Except.ok [ps]
    ∧ ∀ (F : Type) (b : List F) (st : F → State) (ks : Option KS),
        dispatch st ks [b] = some (Except.ok b, [b], ks) := by
  constructor
  · rw [makeBatches_ok size hiter hseq hlen,
      buildBatches_single size L ps hsize hL hLs hlen]
  · intro F b st ks
    simp [dispatch, mapGo]

/-- C6: a `CountSwitch` advances its failed-count only on Failed or Crashed
outcomes (the final counter equals the number of such outcomes observed), and
the `i`-th `should_flip_switch` result is true exactly when the failed
outcomes among the first `i+1` observed have reached `max_count`. -/
theorem countSwitch_should_flip_spec (m : Nat) :
    ∀ (ss : List State) (c : Nat),
      ((KS.countSwitch m c).observe ss).1
          = KS.countSwitch m (c + ss.countP failedOrCrashed)
        ∧ ∀ i, i < ss.length →
          ((KS.countSwitch m c).observe ss).2.getD i false
            = decide (m ≤ c + ((ss.take (i + 1)).countP failedOrCrashed)) := by
  intro ss
  induction ss with
  | nil =>
    intro c
    exact ⟨by simp [KS.observe], by intro i hi; simp at hi⟩
  | cons s rest ih =>
    intro c
    have hobs : (KS.countSwitch m c).observe (s :: rest)
        = (((KS.countSwitch m (if failedOrCrashed s then c + 1 else c)).observe rest).1,
           decide (m ≤ if failedOrCrashed s then c + 1 else c)
             :: ((KS.countSwitch m (if failedOrCrashed s then c + 1 else c)).observe rest).2) := by
      simp [KS.observe, KS.shouldFlipSwitch]
    constructor
    · rw [hobs]
      rw [(ih (if failedOrCrashed s then c + 1 else c)).1]
      have : (if failedOrCrashed s then c + 1 else c) + rest.countP failedOrCrashed
          = c + (s :: rest).countP failedOrCrashed := by
        rw [List.countP_cons]
        by_cases hs : failedOrCrashed s = true <;> simp [hs] <;> omega
      rw [this]
    · intro i hi
      rw [hobs]
      cases i with
      | zero =>
        rw [List.getD_cons_zero]
        rw [decide_eq_decide]
        have : (List.take 1 (s :: rest)).countP failedOrCrashed
            = if failedOrCrashed s then 1 else 0 := by
          simp [List.countP_cons]
        rw [this]
        by_cases hs : failedOrCrashed s = true <;> simp [hs] <;> omega
      | succ i =>
        rw [List.getD_cons_succ]
        rw [(ih (if failedOrCrashed s then c + 1 else c)).2 i (by simpa using hi)]
        rw [decide_eq_decide]
        rw [List.take_succ_cons, List.countP_cons]
        by_cases hs : failedOrCrashed s = true <;> simp [hs] <;> omega

/-- C7: a `RateSwitch` counts every outcome and separately the Failed or
Crashed ones, and the `i`-th `should_flip_switch` result is true exactly when
the total observed `i+1` has reached `min_sample` and the failure rate
`failed / total` has reached `max_fail_rate`. -/
theorem rateSwitch_should_flip_spec (ms : Nat) (r : ℚ) :
    ∀ (ss : List State) (c f : Nat),
      ((KS.rateSwitch ms r c f).observe ss).1
          = KS.rateSwitch ms r (c + ss.length) (f + ss.countP failedOrCrashed)
        ∧ ∀ i, i < ss.length →
          ((KS.rateSwitch ms r c f).observe ss).2.getD i false
            = decide (ms ≤ c + i + 1
                ∧ r ≤ ((f + (ss.take (i + 1)).countP failedOrCrashed : Nat) : ℚ)
                      / ((c + i + 1 : Nat) : ℚ)) := by
  intro ss
  induction ss with
  | nil => intro c f; exact ⟨by simp [KS.observe], by intro i hi; simp at hi⟩
  | cons s rest ih =>
    intro c f
    have hobs : (KS.rateSwitch ms r c f).observe (s :: rest)
        = (((KS.rateSwitch ms r (c + 1) (if failedOrCrashed s then f + 1 else f)).observe
              rest).1,
           decide (ms ≤ c + 1
             ∧ r ≤ (((if failedOrCrashed s then f + 1 else f) : Nat) : ℚ)
                   / (((c + 1 : Nat)) : ℚ))
             :: ((KS.rateSwitch ms r (c + 1)
                  (if failedOrCrashed s then f + 1 else f)).observe rest).2) := by
      simp [KS.observe, KS.shouldFlipSwitch]
    constructor
    · rw [hobs, (ih (c + 1) (if failedOrCrashed s then f + 1 else f)).1]
      have h1 : c + 1 + rest.length = c + (s :: rest).length := by
        simp [List.length_cons]
        omega
      have h2 : (if failedOrCrashed s then f + 1 else f) + rest.countP failedOrCrashed
          = f + (s :: rest).countP failedOrCrashed := by
        rw [List.countP_cons]
        by_cases hs : failedOrCrashed s = true <;> simp [hs] <;> omega
      rw [h1, h2]
    · intro i hi
      rw [hobs]
      cases i with
      | zero =>
        rw [List.getD_cons_zero, decide_eq_decide]
        have h2 : (List.take (0 + 1) (s :: rest)).countP failedOrCrashed
            = if failedOrCrashed s then 1 else 0 := by simp [List.countP_cons]
        rw [h2]
        have h3 : f + (if failedOrCrashed s then 1 else 0)
            = (if failedOrCrashed s then f + 1 else f) := by
          by_cases hs : failedOrCrashed s = true <;> simp [hs]
        rw [show c + 0 + 1 = c + 1 from rfl, h3]
      | succ i =>
        rw [List.getD_cons_succ,
          (ih (c + 1) (if failedOrCrashed s then f + 1 else f)).2 i (by simpa using hi),
          decide_eq_decide, List.take_succ_cons, List.countP_cons]
        have h1 : c + 1 + i + 1 = c + (i + 1) + 1 := by omega
        have h2 : (if failedOrCrashed s then f + 1 else f)
              + (rest.take (i + 1)).countP failedOrCrashed
            = f + ((rest.take (i + 1)).countP failedOrCrashed
              + if failedOrCrashed s then 1 else 0) := by
          by_cases hs : failedOrCrashed s = true <;> simp [hs] <;> omega
        rw [h1, h2]

/-- C8 counterexample: `AnyFailedSwitch` returns true on a Failed outcome and
then false on a following Completed outcome, and `RateSwitch(1, 1/2)` returns
true on its first (failed) outcome but false on its third: neither variant
remains permanently triggered, refuting the claim for these two variants. -/
theorem killSwitch_not_permanently_triggered :
    ((KS.anyFailed.shouldFlipSwitch State.failed).2 = true
      ∧ ((KS.anyFailed.shouldFlipSwitch State.failed).1.shouldFlipSwitch
          State.completed).2 = false)
    ∧ (((KS.rateSwitch 1 (1/2) 0 0).observe
          [State.failed, State.completed, State.completed]).2.getD 0 false = true
      ∧ ((KS.rateSwitch 1 (1/2) 0 0).observe
          [State.failed, State.completed, State.completed]).2.getD 2 false = false) := by
  refine ⟨⟨rfl, rfl⟩, ?_, ?_⟩
  · simp [KS.observe, KS.shouldFlipSwitch, failedOrCrashed, State.is_failed,
      State.is_crashed]
    norm_num
  · simp [KS.observe, KS.shouldFlipSwitch, failedOrCrashed, State.is_failed,
      State.is_crashed]
    norm_num

theorem countSwitch_all_triggered (m : Nat) :
    ∀ (ss : List State) (c : Nat), m ≤ c →
      ((KS.countSwitch m c).observe ss).2.all id = true := by
  intro ss
  induction ss with
  | nil => intro c _; rfl
  | cons s rest ih =>
    intro c hc
    have hobs : (KS.countSwitch m c).observe (s :: rest)
        = (((KS.countSwitch m (if failedOrCrashed s then c + 1 else c)).observe rest).1,
           decide (m ≤ if failedOrCrashed s then c + 1 else c)
             :: ((KS.countSwitch m (if failedOrCrashed s then c + 1 else c)).observe
                rest).2) := by
      simp [KS.observe, KS.shouldFlipSwitch]
    rw [hobs]
    rw [List.all_cons]
    have h1 : id (decide (m ≤ if failedOrCrashed s then c + 1 else c)) = true := by
      by_cases hs : failedOrCrashed s = true <;> simp [hs] <;> omega
    rw [h1, ih (if failedOrCrashed s then c + 1 else c)
      (by by_cases hs : failedOrCrashed s = true <;> simp [hs] <;> omega)]
    rfl

/-- C8 (amended): only `CountSwitch` is permanently triggered: once its
`should_flip_switch` has returned true, every subsequent call returns true,
whatever the outcomes observed, since its failed-count only grows. -/
theorem countSwitch_permanently_triggered (m c : Nat) (s : State) (ss : List State)
    (h : ((KS.countSwitch m c).shouldFlipSwitch s).2 = true) :
    (((KS.countSwitch m c).shouldFlipSwitch s).1.observe ss).2.all id = true := by
  have hm : m ≤ if failedOrCrashed s then c + 1 else c := by
    have : ((KS.countSwitch m c).shouldFlipSwitch s).2
        = decide (m ≤ if failedOrCrashed s then c + 1 else c) := by
      simp [KS.shouldFlipSwitch]
    rw [this] at h
    simpa using h
  have hfst : ((KS.countSwitch m c).shouldFlipSwitch s).1
      = KS.countSwitch m (if failedOrCrashed s then c + 1 else c) := by
    simp [KS.shouldFlipSwitch]
  rw [hfst]
  exact countSwitch_all_triggered m ss _ hm

/-- C2: `_make_batches` with size 3 applied to a=[1,2,3,4,5], b=[2,3,4,5,6]
returns exactly two batches: first a=[1,2,3], b=[2,3,4]; then the remainder
batch a=[4,5], b=[5,6] holding only the trailing slice of every sequence. -/
theorem makeBatches_example_two_batches :
    makeBatches 3 exampleParams
      = Except.ok [[("a", PyVal.list [1, 2, 3]), ("b", PyVal.list [2, 3, 4])],
                   [("a", PyVal.list [4, 5]), ("b", PyVal.list [5, 6])]] := rfl

/-- Witness for C1 at size 3, a=[1,2,3,4,5], b=[2,3,4,5,6], common length 5. -/
theorem makeBatches_partition_roundtrip_witness :
    (0 < 3 ∧ (∀ p ∈ exampleParams, p.2.hasIter = true)
      ∧ (∃ p ∈ exampleParams, p.2.isSeq = true)
      ∧ (∀ p ∈ exampleParams, p.2.lenOk 5 = true))
    ∧ (∃ bs, makeBatches 3 exampleParams = Except.ok bs
        ∧ bs.length = (5 + 3 - 1) / 3
        ∧ (∀ i, (hi : i < bs.length) → bs.get ⟨i, hi⟩
            = exampleParams.map (fun p => (p.1, sliceVal 3 i p.2)))
        ∧ (∀ (j : Nat) (k : String) (xs : List Nat),
            exampleParams[j]? = some (k, PyVal.list xs) →
            (bs.map (fun b => entrySeqAt b j)).flatten = xs)
        ∧ (∀ (j : Nat) (k : String) (v : Nat),
            exampleParams[j]? = some (k, PyVal.unmapped v) →
            ∀ b ∈ bs, b[j]? = some (k, PyVal.unmapped v))) :=
  ⟨⟨by decide, by decide, by decide, by decide⟩,
    makeBatches_partition_roundtrip 3 5 exampleParams (by decide) (by decide)
      (by decide) (by decide)⟩

/-- Witness for C3: an all-broadcast mapping errors, and `BatchTask.map` then
submits nothing and leaves the kill switch untouched. -/
theorem makeBatches_error_characterisation_witness :
    (∃ e, makeBatches 1 [("a", PyVal.unmapped (0 : Nat))] = Except.error e)
    ∧ taskMapRun 1 [("a", PyVal.unmapped (0 : Nat))] constStFailed
        (some KS.anyFailed) noFut
        = some (Except.error (MapError.valueError
            ("Must provide at least one non-unmapped iterable.")), [],
          some KS.anyFailed) :=
  ⟨(makeBatches_error_characterisation 1 [("a", PyVal.unmapped (0 : Nat))]).1.mpr
      (Or.inr (Or.inr (Or.inl (by decide)))),
    (makeBatches_error_characterisation 1 [("a", PyVal.unmapped (0 : Nat))]).2 Nat
      ("Must provide at least one non-unmapped iterable.") constStFailed
      (some KS.anyFailed) noFut rfl⟩

/-- Witness for C4: three one-future batches, all futures failing, with an
`AnyFailedSwitch`: the dispatch aborts after batch 0 and batches 1 and 2 are
never submitted. -/
theorem dispatch_killSwitch_abort_witness :
    (0 + 1 < ([[0], [1], [2]] : List (List Nat)).length
      ∧ (∀ b ∈ ([[0], [1], [2]] : List (List Nat)).take (0 + 1),
          ∀ f ∈ b, is_terminal (constStFailed f) = true)
      ∧ ksAfter KS.anyFailed ((([[0], [1], [2]] : List (List Nat)).take 0).map
          (fun b => b.map constStFailed)) = Except.ok KS.anyFailed
      ∧ ([[0], [1], [2]] : List (List Nat))[0]? = some [0]
      ∧ checkBatch KS.anyFailed ([0].map constStFailed) = Except.error KS.anyFailed)
    ∧ dispatch constStFailed (some KS.anyFailed) [[0], [1], [2]]
        = some (Except.error KS.anyFailed, [[0]], some KS.anyFailed) :=
  ⟨⟨by decide, by decide, rfl, rfl, rfl⟩,
    dispatch_killSwitch_abort constStFailed KS.anyFailed KS.anyFailed KS.anyFailed
      [[0], [1], [2]] 0 [0] (by decide) (by decide) rfl rfl rfl⟩

/-- Witness for C5: two batches where the single future of the final batch
fails under an `AnyFailedSwitch`: the final batch is still submitted without
any kill-switch evaluation and no error is raised. -/
theorem dispatch_final_batch_unpolled_witness :
    (([[0], [1]] : List (List Nat)) ≠ []
      ∧ (∀ b ∈ ([[0], [1]] : List (List Nat)).dropLast,
          ∀ f ∈ b, is_terminal (stLastFails f) = true)
      ∧ ksAfterOpt (some KS.anyFailed) ((([[0], [1]] : List (List Nat)).dropLast).map
          (fun b => b.map stLastFails)) = Except.ok (some KS.anyFailed))
    ∧ dispatch stLastFails (some KS.anyFailed) [[0], [1]]
        = some (Except.ok [0, 1], [[0], [1]], some KS.anyFailed) :=
  ⟨⟨by decide, by decide, rfl⟩,
    dispatch_final_batch_unpolled stLastFails (some KS.anyFailed)
      (some KS.anyFailed) [[0], [1]] (by decide) (by decide) rfl⟩

/-- Witness for C6: `CountSwitch(2)` on [Failed, Completed, Failed] returns
false, false, true — triggering on the third call, not before — and ends with
failed-count 2. -/
theorem countSwitch_should_flip_spec_witness :
    ((KS.countSwitch 2 0).observe
        [State.failed, State.completed, State.failed]).2.getD 0 false = false
    ∧ ((KS.countSwitch 2 0).observe
        [State.failed, State.completed, State.failed]).2.getD 1 false = false
    ∧ ((KS.countSwitch 2 0).observe
        [State.failed, State.completed, State.failed]).2.getD 2 false = true
    ∧ ((KS.countSwitch 2 0).observe
        [State.failed, State.completed, State.failed]).1 = KS.countSwitch 2 2 :=
  ⟨((countSwitch_should_flip_spec 2 [State.failed, State.completed, State.failed]
      0).2 0 (by decide)).trans rfl,
   ((countSwitch_should_flip_spec 2 [State.failed, State.completed, State.failed]
      0).2 1 (by decide)).trans rfl,
   ((countSwitch_should_flip_spec 2 [State.failed, State.completed, State.failed]
      0).2 2 (by decide)).trans rfl,
   ((countSwitch_should_flip_spec 2 [State.failed, State.completed, State.failed]
      0).1).trans rfl⟩

/-- Witness for C7: `RateSwitch(3, 1/2)` does not trigger on
[Completed, Failed], triggers on the third outcome of
[Completed, Failed, Crashed], and does not trigger below the minimum sample
even at a 100% failure rate. -/
theorem rateSwitch_should_flip_spec_witness :
    ((KS.rateSwitch 3 (1/2) 0 0).observe
        [State.completed, State.failed]).2.getD 0 false = false
    ∧ ((KS.rateSwitch 3 (1/2) 0 0).observe
        [State.completed, State.failed]).2.getD 1 false = false
    ∧ ((KS.rateSwitch 3 (1/2) 0 0).observe
        [State.completed, State.failed, State.crashed]).2.getD 2 false = true
    ∧ ((KS.rateSwitch 3 (1/2) 0 0).observe
        [State.failed, State.failed]).2.getD 1 false = false := by
  refine ⟨?_, ?_, ?_, ?_⟩
  · rw [(rateSwitch_should_flip_spec 3 (1/2) [State.completed, State.failed]
      0 0).2 0 (by decide)]
    simp [List.countP_cons, failedOrCrashed, State.is_failed, State.is_crashed]
  · rw [(rateSwitch_should_flip_spec 3 (1/2) [State.completed, State.failed]
      0 0).2 1 (by decide)]
    simp [List.countP_cons, failedOrCrashed, State.is_failed, State.is_crashed]
  · rw [(rateSwitch_should_flip_spec 3 (1/2)
      [State.completed, State.failed, State.crashed] 0 0).2 2 (by decide)]
    simp [List.countP_cons, failedOrCrashed, State.is_failed, State.is_crashed]
    norm_num
  · rw [(rateSwitch_should_flip_spec 3 (1/2) [State.failed, State.failed]
      0 0).2 1 (by decide)]
    simp [List.countP_cons, failedOrCrashed, State.is_failed, State.is_crashed]

/-- Witness for C8 (amended): `CountSwitch(2)` with one prior failure triggers
on a second failure and stays triggered through later outcomes of every
kind. -/
theorem countSwitch_permanently_triggered_witness :
    ((KS.countSwitch 2 1).shouldFlipSwitch State.failed).2 = true
    ∧ (((KS.countSwitch 2 1).shouldFlipSwitch State.failed).1.observe
        [State.completed, State.cancelled, State.failed]).2.all id = true :=
  ⟨rfl, countSwitch_permanently_triggered 2 1 State.failed
      [State.completed, State.cancelled, State.failed] rfl⟩

/-- Witness for C9 at a=[], b=[] with size 3. -/
theorem makeBatches_zero_length_empty_dispatch_witness :
    ((∀ p ∈ emptyParams, p.2.hasIter = true)
      ∧ (∃ p ∈ emptyParams, p.2.isSeq = true)
      ∧ (∀ p ∈ emptyParams, p.2.lenOk 0 = true))
    ∧ makeBatches 3 emptyParams = Except.ok []
    ∧ dispatch constStFailed (some KS.anyFailed) ([] : List (List Nat))
        = some (Except.ok [], [], some KS.anyFailed) :=
  ⟨⟨by decide, by decide, by decide⟩,
    (makeBatches_zero_length_empty_dispatch 3 emptyParams (by decide) (by decide)
      (by decide)).1,
    (makeBatches_zero_length_empty_dispatch 3 emptyParams (by decide) (by decide)
      (by decide)).2 Nat constStFailed (some KS.anyFailed)⟩

/-- Witness for C10 at size 5 over the example params (a single batch), and a
dispatch of one batch whose futures are all left non-terminal under a
hair-trigger `CountSwitch(1)`: the dispatch still returns at once with the
kill switch's counters unchanged. -/
theorem single_batch_skips_killSwitch_witness :
    ((0 : Nat) < 5 ∧ (0 : Nat) < 5 ∧ (5 : Nat) ≤ 5
      ∧ (∀ p ∈ exampleParams, p.2.hasIter = true)
      ∧ (∃ p ∈ exampleParams, p.2.isSeq = true)
      ∧ (∀ p ∈ exampleParams, p.2.lenOk 5 = true))
    ∧ makeBatches 5 exampleParams = Except.ok [exampleParams]
    ∧ dispatch constStRunning (some (KS.countSwitch 1 0)) [[0, 1, 2]]
        = some (Except.ok [0, 1, 2], [[0, 1, 2]], some (KS.countSwitch 1 0)) :=
  ⟨⟨by decide, by decide, by decide, by decide, by decide, by decide⟩,
    (single_batch_skips_killSwitch 5 5 exampleParams (by decide) (by decide)
      (by decide) (by decide) (by decide) (by decide)).1,
    (single_batch_skips_killSwitch 5 5 exampleParams (by decide) (by decide)
      (by decide) (by decide) (by decide) (by decide)).2 Nat [0, 1, 2]
      constStRunning (some (KS.countSwitch 1 0))⟩
